import Mathlib

/-!
Shallow embedding of the AIBasketStrategy contract (AIBasketStrategy.sol).

Modelling conventions:
- an EVM address is a natural number; the zero address is 0;
- uint256 arithmetic is modelled by unbounded Nat (Solidity 0.8 checked
  arithmetic reverts on overflow rather than wrapping, so unbounded Nat is
  faithful for all reachable values; Solidity integer division is floor
  division on non-negative operands, which is Nat division);
- a reverting call is an Except.error result; EVM revert semantics roll back
  every state write of the call, so an error result carries no new state and
  the caller keeps the pre-call state (see applyTx);
- external contracts (ERC20 token metadata, the Uniswap-style router) are an
  environment of functions; a try/catch around a router call corresponds to
  the Option result of the environment function (none = the external call
  reverted);
- the strategy contract state (allocations, allow-list, price feeds, the
  ERC20 balances held by the strategy, and its router allowances) is a State
  record with association-list maps.
-/

abbrev Address := Nat

/-- One entry of the allocations array: a token and its weight in basis
points (struct TokenAllocation of the source). -/
structure TokenAllocation where
  token : Address
  percentage : Nat
deriving DecidableEq, Repr

/-- A Chainlink-style price feed as the contract reads it: the latest answer
and the number of decimals the feed reports in. -/
structure Feed where
  answer : Int
  decimals : Nat
deriving DecidableEq, Repr

/-- Revert reasons, grouped by the error taxonomy of the specification:
require failures on registry-mutating input are ValidationError, require
failures inside the valuation helpers are OracleError, and a Solidity
panic (such as indexing an empty array) is PanicError. -/
inductive ContractError where
  | ValidationError : String → ContractError
  | OracleError : String → ContractError
  | PanicError : String → ContractError
deriving DecidableEq, Repr

/-- The external world: ERC20 token decimals, and the router. quote models
router.getAmountsOut (none = the call reverted and the try/catch caught it);
exec models router.swapExactTokensForTokens given amountIn, amountOutMin and
the path (none = the call reverted; some out = it succeeded and delivered
out units of the final path token). -/
structure Env where
  tokenDecimals : Address → Nat
  quote : Nat → List Address → Option (List Nat)
  exec : Nat → Nat → List Address → Option Nat

/-- Mutable contract state plus the token balances the strategy holds and
its current router allowances (both live in the external ERC20 contracts
but are part of the observable state of the system). -/
structure State where
  asset : Address
  weth : Address
  allocations : List TokenAllocation
  allowedTokens : List Address
  priceFeeds : List (Address × Feed)
  balances : List (Address × Nat)
  allowances : List (Address × Nat)
deriving DecidableEq, Repr

/-- First-match association-list lookup (mapping access). -/
def alookup {β : Type} : List (Address × β) → Address → Option β
  | [], _ => none
  | (k, v) :: rest, t => if k = t then some v else alookup rest t

/-- IERC20(token).balanceOf(address(this)): a missing entry is balance 0. -/
def balOf (s : State) (t : Address) : Nat := (alookup s.balances t).getD 0

/-- Overwrite the strategy balance of a token. -/
def setBal (s : State) (t : Address) (v : Nat) : State :=
  { s with balances := (t, v) :: s.balances }

/-- The strategy allowance granted to the router for a token. -/
def allowanceOf (s : State) (t : Address) : Nat := (alookup s.allowances t).getD 0

/-- IERC20(token).forceApprove(router, v). -/
def setAllowance (s : State) (t : Address) (v : Nat) : State :=
  { s with allowances := (t, v) :: s.allowances }

/-- allowedTokens mapping membership. -/
def isAllowed (s : State) (t : Address) : Bool := s.allowedTokens.contains t

def MAX_BPS : Nat := 10000
def MAX_SLIPPAGE : Nat := 500
def MAX_ALLOCATIONS : Nat := 10

/-- _getTokenValueInAsset of the source: convert a token amount to base
asset units using both price feeds, normalising the signed token-decimal
difference, with truncating division. Every require is an error result. -/
def getTokenValueInAsset (env : Env) (s : State) (token : Address) (tokenAmount : Nat) :
    Except ContractError Nat :=
  if token = s.asset then .ok tokenAmount
  else if tokenAmount = 0 then .ok 0
  else
    match alookup s.priceFeeds token with
    | none => .error (.OracleError "no token feed")
    | some tokenFeed =>
      match alookup s.priceFeeds s.asset with
      | none => .error (.OracleError "no asset feed")
      | some assetFeed =>
        if 0 < tokenFeed.answer ∧ 0 < assetFeed.answer then
          if tokenFeed.decimals = assetFeed.decimals then
            let tokenDec : Int := env.tokenDecimals token
            let assetDec : Int := env.tokenDecimals s.asset
            let exp : Int := assetDec - tokenDec
            let uTokenPrice : Nat := tokenFeed.answer.toNat
            let uAssetPrice : Nat := assetFeed.answer.toNat
            if 0 ≤ exp then
              .ok (tokenAmount * uTokenPrice * 10 ^ exp.toNat / uAssetPrice)
            else
              .ok (tokenAmount * uTokenPrice / (uAssetPrice * 10 ^ (-exp).toNat))
          else .error (.OracleError "feed decimals mismatch")
        else .error (.OracleError "invalid price")

/-- _convertAssetValueToTokenAmount of the source: convert a base-asset
value to a token amount, the inverse direction of getTokenValueInAsset. -/
def convertAssetValueToTokenAmount (env : Env) (s : State) (token : Address) (assetAmount : Nat) :
    Except ContractError Nat :=
  if token = s.asset then .ok assetAmount
  else if assetAmount = 0 then .ok 0
  else
    match alookup s.priceFeeds token with
    | none => .error (.OracleError "no token feed")
    | some tokenFeed =>
      match alookup s.priceFeeds s.asset with
      | none => .error (.OracleError "no asset feed")
      | some assetFeed =>
        if 0 < tokenFeed.answer ∧ 0 < assetFeed.answer then
          if tokenFeed.decimals = assetFeed.decimals then
            let tokenDec : Int := env.tokenDecimals token
            let assetDec : Int := env.tokenDecimals s.asset
            let exp : Int := tokenDec - assetDec
            let uTokenPrice : Nat := tokenFeed.answer.toNat
            let uAssetPrice : Nat := assetFeed.answer.toNat
            if 0 ≤ exp then
              .ok (assetAmount * uAssetPrice * 10 ^ exp.toNat / uTokenPrice)
            else
              .ok (assetAmount * uAssetPrice / (uTokenPrice * 10 ^ (-exp).toNat))
          else .error (.OracleError "feed decimals mismatch")
        else .error (.OracleError "invalid price")

/-- The loop of totalAssets: fold over the allocations array, adding the
converted value of each non-base allocation token the strategy holds. -/
def totalAssetsLoop (env : Env) (s : State) : List TokenAllocation → Nat → Except ContractError Nat
  | [], acc => .ok acc
  | a :: rest, acc =>
    if a.token ≠ s.asset then
      if 0 < balOf s a.token then
        match getTokenValueInAsset env s a.token (balOf s a.token) with
        | .error e => .error e
        | .ok v => totalAssetsLoop env s rest (acc + v)
      else totalAssetsLoop env s rest acc
    else totalAssetsLoop env s rest acc

/-- totalAssets of the source: the base-asset balance plus the converted
value of every non-base allocation token balance, recomputed from the
current state on each call. -/
def totalAssets (env : Env) (s : State) : Except ContractError Nat :=
  totalAssetsLoop env s s.allocations (balOf s s.asset)

/-- _buildPath of the source. -/
def buildPath (s : State) (fromToken toToken : Address) : List Address :=
  if fromToken = toToken then [fromToken]
  else if fromToken = s.weth ∨ toToken = s.weth then [fromToken, toToken]
  else [fromToken, s.weth, toToken]

/-- Record of one attempted router execution inside _swapToken. -/
structure ExecRecord where
  path : List Address
  amountIn : Nat
  amountOutMin : Nat
  succeeded : Bool
deriving DecidableEq, Repr

/-- _swapToken of the source. Returns the post-call state and, when the
router execution was attempted, a record of it. A quote failure (catch
around getAmountsOut) silently skips the swap; a quote returning an empty
array would make the amountsOut indexing panic; an execution failure
(catch around swapExactTokensForTokens, which also covers the router
reverting because the strategy balance cannot cover amountIn) resets the
router approval of the from token to zero and is swallowed. -/
def swapToken (env : Env) (s : State) (fromToken toToken : Address) (amount : Nat) :
    Except ContractError (State × Option ExecRecord) :=
  if fromToken = toToken ∨ amount = 0 then .ok (s, none)
  else
    let path := buildPath s fromToken toToken
    match env.quote amount path with
    | none => .ok (s, none)
    | some amountsOut =>
      match amountsOut.getLast? with
      | none => .error (.PanicError "array index out of bounds")
      | some expectedOut =>
        let amountOutMin := expectedOut * (MAX_BPS - MAX_SLIPPAGE) / MAX_BPS
        let s1 := setAllowance s fromToken amount
        match env.exec amount amountOutMin path with
        | some amountOut =>
          if amount ≤ balOf s1 fromToken then
            let s2 := setBal s1 fromToken (balOf s1 fromToken - amount)
            let s3 := setBal s2 toToken (balOf s2 toToken + amountOut)
            let s4 := setAllowance s3 fromToken 0
            .ok (s4, some ⟨path, amount, amountOutMin, true⟩)
          else
            .ok (setAllowance s1 fromToken 0, some ⟨path, amount, amountOutMin, false⟩)
        | none =>
          .ok (setAllowance s1 fromToken 0, some ⟨path, amount, amountOutMin, false⟩)

/-- A call of _swapToken as issued by the rebalance, liquidation and
emergency-exit loops (the trade order handed to the Swap Execution
Adapter). -/
structure SwapCall where
  fromToken : Address
  toToken : Address
  amount : Nat
deriving DecidableEq, Repr

/-- currentValue as computed by the rebalance loop body (lines 217 to 222
of the source): the raw base-asset balance for the base asset itself,
otherwise the converted value of the token balance when nonzero. -/
def currentValueOf (env : Env) (s : State) (token : Address) : Except ContractError Nat :=
  if token = s.asset then .ok (balOf s s.asset)
  else if 0 < balOf s token then getTokenValueInAsset env s token (balOf s token)
  else .ok 0

/-- One iteration of the _rebalancePortfolio loop for the allocation a,
with totalValue fixed at the value computed before the loop. -/
def rebalanceStep (env : Env) (tv : Nat) (s : State) (a : TokenAllocation) :
    Except ContractError (State × List SwapCall) :=
  match currentValueOf env s a.token with
  | .error e => .error e
  | .ok currentValue =>
    let targetValue := tv * a.percentage / MAX_BPS
    let threshold := tv / 100
    if currentValue + threshold < targetValue then
      let amountToBuy := targetValue - currentValue
      match swapToken env s s.asset a.token amountToBuy with
      | .error e => .error e
      | .ok (s1, _) => .ok (s1, [⟨s.asset, a.token, amountToBuy⟩])
    else if targetValue + threshold < currentValue then
      let amountToSell := currentValue - targetValue
      if a.token ≠ s.asset then
        match convertAssetValueToTokenAmount env s a.token amountToSell with
        | .error e => .error e
        | .ok tokenAmountToSell =>
          let actualBalance := balOf s a.token
          let sellAmount := if actualBalance < tokenAmountToSell then actualBalance else tokenAmountToSell
          match swapToken env s a.token s.asset sellAmount with
          | .error e => .error e
          | .ok (s1, _) => .ok (s1, [⟨a.token, s.asset, sellAmount⟩])
      else .ok (s, [])
    else .ok (s, [])

/-- The per-allocation loop of _rebalancePortfolio, threading the state and
accumulating the issued swap calls. -/
def rebalanceLoop (env : Env) (tv : Nat) :
    State → List TokenAllocation → List SwapCall → Except ContractError (State × List SwapCall)
  | s, [], acc => .ok (s, acc)
  | s, a :: rest, acc =>
    match rebalanceStep env tv s a with
    | .error e => .error e
    | .ok (s1, calls) => rebalanceLoop env tv s1 rest (acc ++ calls)

/-- _rebalancePortfolio of the source: early return on an empty allocation
set or zero total value, otherwise one pass over the allocations in
registry order with the total value fixed up front. -/
def rebalancePortfolio (env : Env) (s : State) : Except ContractError (State × List SwapCall) :=
  if s.allocations = [] then .ok (s, [])
  else
    match totalAssets env s with
    | .error e => .error e
    | .ok tv =>
      if tv = 0 then .ok (s, [])
      else rebalanceLoop env tv s s.allocations []

/-- One iteration of the _liquidateForWithdrawal loop for the allocation a. -/
def liquidateStep (env : Env) (tv neededAmount : Nat) (s : State) (a : TokenAllocation) :
    Except ContractError (State × List SwapCall) :=
  if a.token = s.asset then .ok (s, [])
  else
    let tokenBalance := balOf s a.token
    if tokenBalance = 0 then .ok (s, [])
    else
      match getTokenValueInAsset env s a.token tokenBalance with
      | .error e => .error e
      | .ok tokenValue =>
        let liquidateValue := tokenValue * neededAmount / tv
        if 0 < liquidateValue then
          match convertAssetValueToTokenAmount env s a.token liquidateValue with
          | .error e => .error e
          | .ok liquidateAmount =>
            let sellAmount := if tokenBalance < liquidateAmount then tokenBalance else liquidateAmount
            match swapToken env s a.token s.asset sellAmount with
            | .error e => .error e
            | .ok (s1, _) => .ok (s1, [⟨a.token, s.asset, sellAmount⟩])
        else .ok (s, [])

/-- The per-allocation loop of _liquidateForWithdrawal. -/
def liquidateLoop (env : Env) (tv neededAmount : Nat) :
    State → List TokenAllocation → List SwapCall → Except ContractError (State × List SwapCall)
  | s, [], acc => .ok (s, acc)
  | s, a :: rest, acc =>
    match liquidateStep env tv neededAmount s a with
    | .error e => .error e
    | .ok (s1, calls) => liquidateLoop env tv neededAmount s1 rest (acc ++ calls)

/-- _liquidateForWithdrawal of the source: sell a slice of every non-base
allocation token holding, proportional to its share of total value. -/
def liquidateForWithdrawal (env : Env) (s : State) (neededAmount : Nat) :
    Except ContractError (State × List SwapCall) :=
  if s.allocations = [] then .ok (s, [])
  else
    match totalAssets env s with
    | .error e => .error e
    | .ok tv =>
      if tv = 0 then .ok (s, [])
      else liquidateLoop env tv neededAmount s s.allocations []

/-- The validation loop of setAllocations: the per-entry requires in source
order (zero token, allow-list, zero percentage, missing price feed),
returning the accumulated percentage sum when every entry passes. -/
def validateAllocs (s : State) : List TokenAllocation → Except ContractError Nat
  | [] => .ok 0
  | a :: rest =>
    if a.token = 0 then .error (.ValidationError "zero token")
    else if isAllowed s a.token = false then .error (.ValidationError "token not allowed")
    else if a.percentage = 0 then .error (.ValidationError "zero percentage")
    else if alookup s.priceFeeds a.token = none then .error (.ValidationError "no price feed")
    else
      match validateAllocs s rest with
      | .error e => .error e
      | .ok t => .ok (a.percentage + t)

/-- setAllocations of the source. The source clears the allocations array
and pushes entries interleaved with the requires; since a require reverts
every write of the call, the net effect is equivalent to validating first
and committing the whole new array only on success, which is how it is
written here. The final AIRebalance event reads this.totalAssets(), so a
valuation failure there also reverts the call. -/
def setAllocations (env : Env) (s : State) (newAllocations : List TokenAllocation) :
    Except ContractError (State × List SwapCall) :=
  if MAX_ALLOCATIONS < newAllocations.length then
    .error (.ValidationError "too many allocations")
  else
    match validateAllocs s newAllocations with
    | .error e => .error e
    | .ok totalPercentage =>
      if MAX_BPS < totalPercentage then .error (.ValidationError "total percentage exceeds 100")
      else
        let s1 := { s with allocations := newAllocations }
        if 0 < balOf s1 s1.asset then
          match rebalancePortfolio env s1 with
          | .error e => .error e
          | .ok (s2, calls) =>
            match totalAssets env s2 with
            | .error e => .error e
            | .ok _ => .ok (s2, calls)
        else
          match totalAssets env s1 with
          | .error e => .error e
          | .ok _ => .ok (s1, [])

/-- One iteration of the emergencyExitAllPositions loop. -/
def exitStep (env : Env) (s : State) (a : TokenAllocation) :
    Except ContractError (State × List SwapCall) :=
  if a.token = s.asset then .ok (s, [])
  else
    let balance := balOf s a.token
    if 0 < balance then
      match swapToken env s a.token s.asset balance with
      | .error e => .error e
      | .ok (s1, _) => .ok (s1, [⟨a.token, s.asset, balance⟩])
    else .ok (s, [])

/-- The per-allocation loop of emergencyExitAllPositions. -/
def exitLoop (env : Env) :
    State → List TokenAllocation → List SwapCall → Except ContractError (State × List SwapCall)
  | s, [], acc => .ok (s, acc)
  | s, a :: rest, acc =>
    match exitStep env s a with
    | .error e => .error e
    | .ok (s1, calls) => exitLoop env s1 rest (acc ++ calls)

/-- emergencyExitAllPositions of the source: swap every non-base allocation
token balance back to the base asset (individual swap failures are
swallowed inside _swapToken), then delete the allocations array. -/
def emergencyExitAllPositions (env : Env) (s : State) :
    Except ContractError (State × List SwapCall) :=
  match exitLoop env s s.allocations [] with
  | .error e => .error e
  | .ok (s1, calls) => .ok ({ s1 with allocations := [] }, calls)

/-- Transaction semantics of an external call: an error result is a revert
and rolls every state write back, so the caller keeps the prior state. -/
def applyTx (s : State) (r : Except ContractError (State × List SwapCall)) : State :=
  match r with
  | .ok p => p.1
  | .error _ => s

/-! Claim C1: what totalAssets sums. -/

/-- Modelled from the spec wording of the amended claim: the value
contribution of one allocation entry (zero for the base asset entry and for
an empty balance, otherwise the converted balance). -/
def specAllocationTerm (env : Env) (s : State) (a : TokenAllocation) : Except ContractError Nat :=
  if a.token = s.asset then .ok 0
  else if 0 < balOf s a.token then getTokenValueInAsset env s a.token (balOf s a.token)
  else .ok 0

/-- Modelled from the spec wording of the amended claim: the sum of the
allocation-entry terms, failing as soon as one term fails. -/
def specTotalValue (env : Env) (s : State) : List TokenAllocation → Except ContractError Nat
  | [] => .ok 0
  | a :: rest =>
    match specAllocationTerm env s a, specTotalValue env s rest with
    | .error e, _ => .error e
    | .ok _, .error e => .error e
    | .ok v, .ok r => .ok (v + r)

theorem totalAssetsLoop_eq_spec (env : Env) (s : State) (l : List TokenAllocation) :
    ∀ acc, totalAssetsLoop env s l acc = (specTotalValue env s l).map (fun v => acc + v) := by
  induction l with
  | nil => intro acc; simp [totalAssetsLoop, specTotalValue, Except.map]
  | cons a rest ih =>
    intro acc
    by_cases ha : a.token = s.asset
    · simp only [totalAssetsLoop, specTotalValue, specAllocationTerm, ha, ite_true, ne_eq,
        not_true_eq_false, ite_false]
      rw [ih acc]
      cases specTotalValue env s rest <;> simp [Except.map]
    · by_cases hb : 0 < balOf s a.token
      · simp only [totalAssetsLoop, specTotalValue, specAllocationTerm, ha, ite_false, ne_eq,
          not_false_eq_true, ite_true, hb]
        cases hv : getTokenValueInAsset env s a.token (balOf s a.token) with
        | error e => simp [Except.map]
        | ok v =>
          dsimp only
          rw [ih (acc + v)]
          cases specTotalValue env s rest with
          | error e => rfl
          | ok r =>
            dsimp only [Except.map]
            rw [Nat.add_assoc]
      · simp only [totalAssetsLoop, specTotalValue, specAllocationTerm, ha, ite_false, ne_eq,
          not_false_eq_true, ite_true, hb]
        rw [ih acc]
        cases specTotalValue env s rest <;> simp [Except.map]

/-- C1 (amended): totalAssets returns the base-asset balance plus the sum,
over the entries of the current allocations array, of the converted value
of each non-base entry token balance; it is a pure function of the current
balances and price feeds (recomputed fresh, nothing cached). Tokens held
but not listed in the allocations array contribute nothing. -/
theorem totalAssets_sums_allocation_entries (env : Env) (s : State) :
    totalAssets env s =
      (specTotalValue env s s.allocations).map (fun v => balOf s s.asset + v) := by
  unfold totalAssets
  exact totalAssetsLoop_eq_spec env s s.allocations (balOf s s.asset)

def envC1 : Env := ⟨fun _ => 0, fun _ _ => none, fun _ _ _ => none⟩

def sC1 : State := ⟨1, 9, [], [1, 2], [(1, ⟨1, 8⟩), (2, ⟨1, 8⟩)], [(1, 50), (2, 100)], []⟩

/-- C1 counterexample: the strategy holds 100 units of token 2 (worth 100
base units under the configured feeds), but token 2 is not in the
allocations array, so totalAssets returns only the base balance 50 instead
of the claimed base-plus-every-holding total 150. -/
theorem totalAssets_misses_unlisted_holding :
    totalAssets envC1 sC1 = .ok 50 ∧
    balOf sC1 2 = 100 ∧
    getTokenValueInAsset envC1 sC1 2 100 = .ok 100 ∧
    (50 : Nat) ≠ 50 + 100 :=
  ⟨rfl, rfl, rfl, by decide⟩

/-! Claim C2: the valueOf / amountOf round trip. -/

theorem div_roundtrip_bounds (v X Y : Nat) (hX : 0 < X) (hY : 0 < Y) :
    v * X / Y * Y / X ≤ v ∧ v ≤ v * X / Y * Y / X + Y / X + 1 := by
  constructor
  · calc v * X / Y * Y / X ≤ v * X / X :=
          Nat.div_le_div_right (Nat.div_mul_le_self _ _)
    _ = v := Nat.mul_div_cancel v hX
  · set q := v * X / Y with hq
    set w := q * Y / X with hw
    set u := Y / X with hu
    by_contra hcon
    push_neg at hcon
    have hm : X * (w + u + 2) ≤ X * v := Nat.mul_le_mul_left X (by omega)
    have hd : X * (w + u + 2) = X * w + X * u + (X + X) := by ring
    have e1 : Y * q + v * X % Y = v * X := Nat.div_add_mod (v * X) Y
    have r1 : v * X % Y < Y := Nat.mod_lt _ hY
    have e2 : X * w + q * Y % X = q * Y := Nat.div_add_mod (q * Y) X
    have r2 : q * Y % X < X := Nat.mod_lt _ hX
    have e3 : X * u + Y % X = Y := Nat.div_add_mod Y X
    have r3 : Y % X < X := Nat.mod_lt _ hX
    have c1 : X * v = v * X := Nat.mul_comm X v
    have c2 : Y * q = q * Y := Nat.mul_comm Y q
    omega

theorem convertAssetValueToTokenAmount_formula (env : Env) (s : State) (token : Address)
    (v : Nat) (tf af : Feed)
    (htok : token ≠ s.asset)
    (htf : alookup s.priceFeeds token = some tf)
    (haf : alookup s.priceFeeds s.asset = some af)
    (hpt : 0 < tf.answer) (hpa : 0 < af.answer)
    (hdec : tf.decimals = af.decimals) :
    convertAssetValueToTokenAmount env s token v =
      .ok (if env.tokenDecimals s.asset ≤ env.tokenDecimals token
        then v * af.answer.toNat *
          10 ^ (env.tokenDecimals token - env.tokenDecimals s.asset) / tf.answer.toNat
        else v * af.answer.toNat /
          (tf.answer.toNat * 10 ^ (env.tokenDecimals s.asset - env.tokenDecimals token))) := by
  unfold convertAssetValueToTokenAmount
  rw [if_neg htok]
  by_cases hv : v = 0
  · subst hv
    simp [htf, haf, hpt, hpa, hdec]
  · rw [if_neg hv, htf, haf]
    dsimp only
    rw [if_pos ⟨hpt, hpa⟩, if_pos hdec]
    by_cases hle : env.tokenDecimals s.asset ≤ env.tokenDecimals token
    · rw [if_pos (show (0 : Int) ≤ (env.tokenDecimals token : Int) -
        (env.tokenDecimals s.asset : Int) from by omega), if_pos hle]
      have he : ((env.tokenDecimals token : Int) - (env.tokenDecimals s.asset : Int)).toNat =
          env.tokenDecimals token - env.tokenDecimals s.asset := by omega
      rw [he]
    · rw [if_neg (show ¬ (0 : Int) ≤ (env.tokenDecimals token : Int) -
        (env.tokenDecimals s.asset : Int) from by omega), if_neg hle]
      have he : (-((env.tokenDecimals token : Int) - (env.tokenDecimals s.asset : Int))).toNat =
          env.tokenDecimals s.asset - env.tokenDecimals token := by omega
      rw [he]

theorem getTokenValueInAsset_formula (env : Env) (s : State) (token : Address)
    (amt : Nat) (tf af : Feed)
    (htok : token ≠ s.asset)
    (htf : alookup s.priceFeeds token = some tf)
    (haf : alookup s.priceFeeds s.asset = some af)
    (hpt : 0 < tf.answer) (hpa : 0 < af.answer)
    (hdec : tf.decimals = af.decimals) :
    getTokenValueInAsset env s token amt =
      .ok (if env.tokenDecimals token ≤ env.tokenDecimals s.asset
        then amt * tf.answer.toNat *
          10 ^ (env.tokenDecimals s.asset - env.tokenDecimals token) / af.answer.toNat
        else amt * tf.answer.toNat /
          (af.answer.toNat * 10 ^ (env.tokenDecimals token - env.tokenDecimals s.asset))) := by
  unfold getTokenValueInAsset
  rw [if_neg htok]
  by_cases hv : amt = 0
  · subst hv
    simp [htf, haf, hpt, hpa, hdec]
  · rw [if_neg hv, htf, haf]
    dsimp only
    rw [if_pos ⟨hpt, hpa⟩, if_pos hdec]
    by_cases hle : env.tokenDecimals token ≤ env.tokenDecimals s.asset
    · rw [if_pos (show (0 : Int) ≤ (env.tokenDecimals s.asset : Int) -
        (env.tokenDecimals token : Int) from by omega), if_pos hle]
      have he : ((env.tokenDecimals s.asset : Int) - (env.tokenDecimals token : Int)).toNat =
          env.tokenDecimals s.asset - env.tokenDecimals token := by omega
      rw [he]
    · rw [if_neg (show ¬ (0 : Int) ≤ (env.tokenDecimals s.asset : Int) -
        (env.tokenDecimals token : Int) from by omega), if_neg hle]
      have he : (-((env.tokenDecimals s.asset : Int) - (env.tokenDecimals token : Int))).toNat =
          env.tokenDecimals token - env.tokenDecimals s.asset := by omega
      rw [he]

theorem roundtrip_matching_bounds (env : Env) (s : State) (token : Address)
    (v : Nat) (tf af : Feed)
    (htok : token ≠ s.asset)
    (htf : alookup s.priceFeeds token = some tf)
    (haf : alookup s.priceFeeds s.asset = some af)
    (hpt : 0 < tf.answer) (hpa : 0 < af.answer)
    (hdec : tf.decimals = af.decimals) :
    ∃ a w u, convertAssetValueToTokenAmount env s token v = .ok a ∧
      getTokenValueInAsset env s token a = .ok w ∧
      getTokenValueInAsset env s token 1 = .ok u ∧
      w ≤ v ∧ v ≤ w + u + 1 := by
  have hpt' : 0 < tf.answer.toNat := by omega
  have hpa' : 0 < af.answer.toNat := by omega
  have hconv := convertAssetValueToTokenAmount_formula env s token v tf af htok htf haf hpt hpa hdec
  have hvalA : ∀ amt, getTokenValueInAsset env s token amt =
      .ok (if env.tokenDecimals token ≤ env.tokenDecimals s.asset
        then amt * tf.answer.toNat *
          10 ^ (env.tokenDecimals s.asset - env.tokenDecimals token) / af.answer.toNat
        else amt * tf.answer.toNat /
          (af.answer.toNat * 10 ^ (env.tokenDecimals token - env.tokenDecimals s.asset))) :=
    fun amt => getTokenValueInAsset_formula env s token amt tf af htok htf haf hpt hpa hdec
  generalize hgdt : env.tokenDecimals token = dt at hconv hvalA
  generalize hgda : env.tokenDecimals s.asset = da at hconv hvalA
  generalize hgpt : tf.answer.toNat = pt at hconv hvalA hpt'
  generalize hgpa : af.answer.toNat = pa at hconv hvalA hpa'
  rcases Nat.lt_trichotomy dt da with hlt | heq | hgt
  · -- token decimals below asset decimals: the scale sits with the token price
    have hY : 0 < pt * 10 ^ (da - dt) :=
      Nat.mul_pos hpt' (Nat.pos_pow_of_pos _ (by norm_num))
    obtain ⟨hb1, hb2⟩ := div_roundtrip_bounds v pa (pt * 10 ^ (da - dt)) hpa' hY
    have ha : convertAssetValueToTokenAmount env s token v =
        .ok (v * pa / (pt * 10 ^ (da - dt))) := by
      rw [hconv, if_neg (by omega)]
    have hw : getTokenValueInAsset env s token (v * pa / (pt * 10 ^ (da - dt))) =
        .ok (v * pa / (pt * 10 ^ (da - dt)) * (pt * 10 ^ (da - dt)) / pa) := by
      rw [hvalA, if_pos (by omega), Nat.mul_assoc]
    have hu : getTokenValueInAsset env s token 1 = .ok (pt * 10 ^ (da - dt) / pa) := by
      rw [hvalA, if_pos (by omega), Nat.one_mul]
    exact ⟨_, _, _, ha, hw, hu, hb1, hb2⟩
  · -- equal token decimals: the scaling power is one
    subst heq
    obtain ⟨hb1, hb2⟩ := div_roundtrip_bounds v pa pt hpa' hpt'
    have ha : convertAssetValueToTokenAmount env s token v = .ok (v * pa / pt) := by
      rw [hconv, if_pos (by omega)]
      simp [Nat.sub_self]
    have hw : getTokenValueInAsset env s token (v * pa / pt) =
        .ok (v * pa / pt * pt / pa) := by
      rw [hvalA, if_pos (by omega)]
      simp [Nat.sub_self]
    have hu : getTokenValueInAsset env s token 1 = .ok (pt / pa) := by
      rw [hvalA, if_pos (by omega)]
      simp [Nat.sub_self]
    exact ⟨_, _, _, ha, hw, hu, hb1, hb2⟩
  · -- token decimals above asset decimals: the scale sits with the asset price
    have hX : 0 < pa * 10 ^ (dt - da) :=
      Nat.mul_pos hpa' (Nat.pos_pow_of_pos _ (by norm_num))
    obtain ⟨hb1, hb2⟩ := div_roundtrip_bounds v (pa * 10 ^ (dt - da)) pt hX hpt'
    have ha : convertAssetValueToTokenAmount env s token v =
        .ok (v * (pa * 10 ^ (dt - da)) / pt) := by
      rw [hconv, if_pos (by omega), Nat.mul_assoc]
    have hw : getTokenValueInAsset env s token (v * (pa * 10 ^ (dt - da)) / pt) =
        .ok (v * (pa * 10 ^ (dt - da)) / pt * pt / (pa * 10 ^ (dt - da))) := by
      rw [hvalA, if_neg (by omega)]
    have hu : getTokenValueInAsset env s token 1 = .ok (pt / (pa * 10 ^ (dt - da))) := by
      rw [hvalA, if_neg (by omega), Nat.one_mul]
    exact ⟨_, _, _, ha, hw, hu, hb1, hb2⟩

theorem roundtrip_mismatch_fails (env : Env) (s : State) (token : Address)
    (v : Nat) (tf af : Feed)
    (htok : token ≠ s.asset)
    (htf : alookup s.priceFeeds token = some tf)
    (haf : alookup s.priceFeeds s.asset = some af)
    (hpt : 0 < tf.answer) (hpa : 0 < af.answer)
    (hdec : tf.decimals ≠ af.decimals) (hv : v ≠ 0) :
    convertAssetValueToTokenAmount env s token v =
      .error (.OracleError "feed decimals mismatch") ∧
    getTokenValueInAsset env s token v =
      .error (.OracleError "feed decimals mismatch") := by
  constructor
  · unfold convertAssetValueToTokenAmount
    rw [if_neg htok, if_neg hv, htf, haf]
    dsimp only
    rw [if_pos ⟨hpt, hpa⟩, if_neg hdec]
  · unfold getTokenValueInAsset
    rw [if_neg htok, if_neg hv, htf, haf]
    dsimp only
    rw [if_pos ⟨hpt, hpa⟩, if_neg hdec]

/-- C2 (amended): for a token with a price binding matching the base asset
binding in decimal precision (both present, both prices positive), the
round trip valueOf(token, amountOf(token, v)) never exceeds v, and falls
short of v by at most one base unit plus the base-asset value of one
smallest token unit (the claimed one-unit bound fails for tokens whose
single unit is worth more than one base unit); with mismatched binding
precisions the conversion fails with an OracleError whenever the token is
not the base asset and the converted quantity is nonzero (a zero quantity
returns zero before the feeds are consulted). -/
theorem valueOf_amountOf_roundtrip :
    (∀ (env : Env) (s : State) (token : Address) (v : Nat) (tf af : Feed),
      token ≠ s.asset →
      alookup s.priceFeeds token = some tf →
      alookup s.priceFeeds s.asset = some af →
      0 < tf.answer → 0 < af.answer →
      tf.decimals = af.decimals →
      ∃ a w u, convertAssetValueToTokenAmount env s token v = .ok a ∧
        getTokenValueInAsset env s token a = .ok w ∧
        getTokenValueInAsset env s token 1 = .ok u ∧
        w ≤ v ∧ v ≤ w + u + 1) ∧
    (∀ (env : Env) (s : State) (token : Address) (v : Nat) (tf af : Feed),
      token ≠ s.asset →
      alookup s.priceFeeds token = some tf →
      alookup s.priceFeeds s.asset = some af →
      0 < tf.answer → 0 < af.answer →
      tf.decimals ≠ af.decimals → v ≠ 0 →
      convertAssetValueToTokenAmount env s token v =
        .error (.OracleError "feed decimals mismatch") ∧
      getTokenValueInAsset env s token v =
        .error (.OracleError "feed decimals mismatch")) :=
  ⟨fun env s token v tf af htok htf haf hpt hpa hdec =>
    roundtrip_matching_bounds env s token v tf af htok htf haf hpt hpa hdec,
   fun env s token v tf af htok htf haf hpt hpa hdec hv =>
    roundtrip_mismatch_fails env s token v tf af htok htf haf hpt hpa hdec hv⟩

def sC2 : State := ⟨1, 9, [], [1, 2], [(1, ⟨1, 8⟩), (2, ⟨1000, 8⟩)], [], []⟩

def sC2m : State := ⟨1, 9, [], [1, 2], [(1, ⟨1, 8⟩), (2, ⟨1000, 6⟩)], [], []⟩

/-- C2 counterexample: token 2 and the base asset have bindings with the
same precision (8 feed decimals, equal token decimals) and positive prices,
one token unit being worth 1000 base units; the round trip of v = 5 gives
amountOf = 0 and valueOf = 0, an error of 5 base units, so the claimed
one-unit bound is false. -/
theorem roundtrip_error_exceeds_one_unit :
    (alookup sC2.priceFeeds 2).map Feed.decimals = some 8 ∧
    (alookup sC2.priceFeeds 1).map Feed.decimals = some 8 ∧
    convertAssetValueToTokenAmount envC1 sC2 2 5 = .ok 0 ∧
    getTokenValueInAsset envC1 sC2 2 0 = .ok 0 ∧
    ¬ (5 : Nat) ≤ 0 + 1 :=
  ⟨rfl, rfl, rfl, rfl, by decide⟩

/-- Witness for C2: the matching-precision part at token 2 of sC1 with
v = 7, and the mismatched-precision part at token 2 of sC2m with v = 5. -/
theorem valueOf_amountOf_roundtrip_witness :
    (∃ a w u, convertAssetValueToTokenAmount envC1 sC1 2 7 = .ok a ∧
      getTokenValueInAsset envC1 sC1 2 a = .ok w ∧
      getTokenValueInAsset envC1 sC1 2 1 = .ok u ∧
      w ≤ 7 ∧ 7 ≤ w + u + 1) ∧
    (convertAssetValueToTokenAmount envC1 sC2m 2 5 =
      .error (.OracleError "feed decimals mismatch") ∧
     getTokenValueInAsset envC1 sC2m 2 5 =
      .error (.OracleError "feed decimals mismatch")) :=
  ⟨valueOf_amountOf_roundtrip.1 envC1 sC1 2 7 ⟨1, 8⟩ ⟨1, 8⟩ (by decide) rfl rfl
      (by decide) (by decide) rfl,
   valueOf_amountOf_roundtrip.2 envC1 sC2m 2 5 ⟨1000, 6⟩ ⟨1, 8⟩ (by decide) rfl rfl
      (by decide) (by decide) (by decide) (by decide)⟩

/-! Claim C3: setAllocations validation. -/

theorem validateAllocs_error_shape (s : State) (l : List TokenAllocation) :
    ∀ e, validateAllocs s l = .error e → ∃ m, e = .ValidationError m := by
  induction l with
  | nil => intro e h; simp [validateAllocs] at h
  | cons a rest ih =>
    intro e h
    unfold validateAllocs at h
    split at h
    · injection h with h2; exact ⟨_, h2.symm⟩
    · split at h
      · injection h with h2; exact ⟨_, h2.symm⟩
      · split at h
        · injection h with h2; exact ⟨_, h2.symm⟩
        · split at h
          · injection h with h2; exact ⟨_, h2.symm⟩
          · cases hv : validateAllocs s rest with
            | error e2 =>
              rw [hv] at h
              injection h with h2
              exact h2 ▸ ih e2 hv
            | ok r => rw [hv] at h; cases h

theorem validateAllocs_ok_sum (s : State) (l : List TokenAllocation) :
    ∀ t, validateAllocs s l = .ok t → t = (l.map TokenAllocation.percentage).sum := by
  induction l with
  | nil =>
    intro t h
    simp only [validateAllocs] at h
    injection h with h2
    simp [← h2]
  | cons a rest ih =>
    intro t h
    unfold validateAllocs at h
    split at h
    · cases h
    · split at h
      · cases h
      · split at h
        · cases h
        · split at h
          · cases h
          · cases hv : validateAllocs s rest with
            | error e2 => rw [hv] at h; cases h
            | ok r =>
              rw [hv] at h
              injection h with h2
              rw [← h2, List.map_cons, List.sum_cons, ih r hv]

theorem validateAllocs_err_of_bad (s : State) (l : List TokenAllocation)
    (h : ∃ a ∈ l, a.token = 0 ∨ isAllowed s a.token = false ∨ a.percentage = 0 ∨
      alookup s.priceFeeds a.token = none) :
    ∃ m, validateAllocs s l = .error (.ValidationError m) := by
  induction l with
  | nil => simp at h
  | cons a rest ih =>
    rcases h with ⟨b, hb, hbad⟩
    rcases List.mem_cons.mp hb with rfl | hmem
    · unfold validateAllocs
      by_cases h0 : b.token = 0
      · rw [if_pos h0]; exact ⟨_, rfl⟩
      · rw [if_neg h0]
        by_cases h1 : isAllowed s b.token = false
        · rw [if_pos h1]; exact ⟨_, rfl⟩
        · rw [if_neg h1]
          by_cases h2 : b.percentage = 0
          · rw [if_pos h2]; exact ⟨_, rfl⟩
          · rw [if_neg h2]
            have h3 : alookup s.priceFeeds b.token = none := by
              rcases hbad with h | h | h | h
              · exact absurd h h0
              · exact absurd h h1
              · exact absurd h h2
              · exact h
            rw [if_pos h3]
            exact ⟨_, rfl⟩
    · unfold validateAllocs
      by_cases h0 : a.token = 0
      · rw [if_pos h0]; exact ⟨_, rfl⟩
      · rw [if_neg h0]
        by_cases h1 : isAllowed s a.token = false
        · rw [if_pos h1]; exact ⟨_, rfl⟩
        · rw [if_neg h1]
          by_cases h2 : a.percentage = 0
          · rw [if_pos h2]; exact ⟨_, rfl⟩
          · rw [if_neg h2]
            by_cases h3 : alookup s.priceFeeds a.token = none
            · rw [if_pos h3]; exact ⟨_, rfl⟩
            · rw [if_neg h3]
              obtain ⟨m, hm⟩ := ih ⟨b, hmem, hbad⟩
              rw [hm]
              exact ⟨m, rfl⟩

/-- C3: setAllocations fails with a ValidationError whenever the new list
is longer than MAX_ALLOCATIONS, contains the zero token, a token outside
the allow-list, a zero weight, or a token without a price feed, or its
weights sum to more than MAX_BPS; and since an error result is a revert,
the prior state (in particular the prior allocations array) is left
entirely unchanged. -/
theorem setAllocations_rejects_invalid (env : Env) (s : State) (l : List TokenAllocation)
    (hbad : MAX_ALLOCATIONS < l.length ∨
      (∃ a ∈ l, a.token = 0 ∨ isAllowed s a.token = false ∨ a.percentage = 0 ∨
        alookup s.priceFeeds a.token = none) ∨
      MAX_BPS < (l.map TokenAllocation.percentage).sum) :
    (∃ msg, setAllocations env s l = .error (.ValidationError msg)) ∧
    applyTx s (setAllocations env s l) = s := by
  have hmain : ∃ msg, setAllocations env s l = .error (.ValidationError msg) := by
    unfold setAllocations
    by_cases hlen : MAX_ALLOCATIONS < l.length
    · rw [if_pos hlen]; exact ⟨_, rfl⟩
    · rw [if_neg hlen]
      rcases hbad with h | h | h
      · exact absurd h hlen
      · obtain ⟨m, hm⟩ := validateAllocs_err_of_bad s l h
        rw [hm]
        exact ⟨m, rfl⟩
      · cases hv : validateAllocs s l with
        | error e =>
          obtain ⟨m, hm⟩ := validateAllocs_error_shape s l e hv
          subst hm
          exact ⟨m, rfl⟩
        | ok t =>
          have ht := validateAllocs_ok_sum s l t hv
          refine ⟨"total percentage exceeds 100", ?_⟩
          dsimp only
          rw [if_pos (by omega)]
  refine ⟨hmain, ?_⟩
  obtain ⟨m, hm⟩ := hmain
  rw [hm]
  rfl

/-- Witness for C3: a single-entry list whose weight 11000 exceeds
MAX_BPS is rejected and the state is unchanged. -/
theorem setAllocations_rejects_invalid_witness :
    (∃ msg, setAllocations envC1 sC1 [⟨2, 11000⟩] = .error (.ValidationError msg)) ∧
    applyTx sC1 (setAllocations envC1 sC1 [⟨2, 11000⟩]) = sC1 :=
  setAllocations_rejects_invalid envC1 sC1 [⟨2, 11000⟩] (Or.inr (Or.inr (by decide)))

/-! Claim C4: the rebalance decision per allocation. -/

/-- C4: during a rebalance pass with total value tv and threshold tv / 100,
an allocation for a non-base token with current value cv and target value
tv * percentage / MAX_BPS behaves as follows: if cv plus the threshold is
below the target, the step issues exactly one swap of target - cv base
asset units into the token; if cv exceeds target plus threshold, it issues
exactly one swap selling the amountOf-converted overweight capped at the
actual token balance; otherwise it issues no swap call and leaves the
state unchanged. -/
theorem rebalanceStep_branch_behavior (env : Env) (s : State) (a : TokenAllocation)
    (tv cv : Nat) (htv : 0 < tv) (htok : a.token ≠ s.asset)
    (hcv : currentValueOf env s a.token = .ok cv) :
    (cv + tv / 100 < tv * a.percentage / MAX_BPS →
      rebalanceStep env tv s a =
        (swapToken env s s.asset a.token (tv * a.percentage / MAX_BPS - cv)).map
          (fun p => (p.1, [⟨s.asset, a.token, tv * a.percentage / MAX_BPS - cv⟩]))) ∧
    (tv * a.percentage / MAX_BPS + tv / 100 < cv →
      ∀ amt, convertAssetValueToTokenAmount env s a.token
          (cv - tv * a.percentage / MAX_BPS) = .ok amt →
        rebalanceStep env tv s a =
          (swapToken env s a.token s.asset (min amt (balOf s a.token))).map
            (fun p => (p.1, [⟨a.token, s.asset, min amt (balOf s a.token)⟩]))) ∧
    (¬ cv + tv / 100 < tv * a.percentage / MAX_BPS →
     ¬ tv * a.percentage / MAX_BPS + tv / 100 < cv →
      rebalanceStep env tv s a = .ok (s, [])) := by
  refine ⟨?_, ?_, ?_⟩
  · intro hbuy
    unfold rebalanceStep
    rw [hcv]
    dsimp only
    rw [if_pos hbuy]
    cases hsw : swapToken env s s.asset a.token (tv * a.percentage / MAX_BPS - cv) with
    | error e => rfl
    | ok p => cases p; rfl
  · intro hsell amt hamt
    unfold rebalanceStep
    rw [hcv]
    dsimp only
    rw [if_neg (by omega), if_pos hsell, if_pos htok, hamt]
    dsimp only
    have hmin : (if balOf s a.token < amt then balOf s a.token else amt) =
        min amt (balOf s a.token) := by split <;> omega
    rw [hmin]
    cases hsw : swapToken env s a.token s.asset (min amt (balOf s a.token)) with
    | error e => rfl
    | ok p => cases p; rfl
  · intro h1 h2
    unfold rebalanceStep
    rw [hcv]
    dsimp only
    rw [if_neg h1, if_neg h2]

def sC4 : State :=
  ⟨1, 9, [⟨2, 6000⟩, ⟨3, 4000⟩], [1, 2, 3],
   [(1, ⟨1, 8⟩), (2, ⟨1, 8⟩), (3, ⟨1, 8⟩)], [(2, 550), (3, 450)], []⟩

/-- Witness for C4: token 2 holds value 550 against target 600 at total
value 1000, so the step issues a buy of 50 base units. -/
theorem rebalanceStep_branch_behavior_witness :
    rebalanceStep envC1 1000 sC4 ⟨2, 6000⟩ =
      (swapToken envC1 sC4 sC4.asset 2 (1000 * 6000 / MAX_BPS - 550)).map
        (fun p => (p.1, [⟨sC4.asset, 2, 1000 * 6000 / MAX_BPS - 550⟩])) :=
  (rebalanceStep_branch_behavior envC1 sC4 ⟨2, 6000⟩ 1000 550 (by decide) (by decide)
    rfl).1 (by decide)

/-! Claim C5: which failures abort a pass. -/

/-- A token whose price binding and the base-asset binding are both present,
positively priced, and of equal feed precision, so that every valuation of
that token succeeds. -/
def goodOracle (pf : List (Address × Feed)) (asset token : Address) : Prop :=
  ∃ tf af, alookup pf token = some tf ∧ alookup pf asset = some af ∧
    0 < tf.answer ∧ 0 < af.answer ∧ tf.decimals = af.decimals

theorem getTokenValueInAsset_total (env : Env) (s : State) (token : Address) (amt : Nat)
    (h : token = s.asset ∨ goodOracle s.priceFeeds s.asset token) :
    ∃ v, getTokenValueInAsset env s token amt = .ok v := by
  by_cases htok : token = s.asset
  · exact ⟨amt, by unfold getTokenValueInAsset; rw [if_pos htok]⟩
  · rcases h with h | ⟨tf, af, htf, haf, hpt, hpa, hdec⟩
    · exact absurd h htok
    · exact ⟨_, getTokenValueInAsset_formula env s token amt tf af htok htf haf hpt hpa hdec⟩

theorem convertAssetValueToTokenAmount_total (env : Env) (s : State) (token : Address)
    (amt : Nat) (h : token = s.asset ∨ goodOracle s.priceFeeds s.asset token) :
    ∃ v, convertAssetValueToTokenAmount env s token amt = .ok v := by
  by_cases htok : token = s.asset
  · exact ⟨amt, by unfold convertAssetValueToTokenAmount; rw [if_pos htok]⟩
  · rcases h with h | ⟨tf, af, htf, haf, hpt, hpa, hdec⟩
    · exact absurd h htok
    · exact ⟨_, convertAssetValueToTokenAmount_formula env s token amt tf af htok htf haf
        hpt hpa hdec⟩

theorem currentValueOf_total (env : Env) (s : State) (token : Address)
    (h : token = s.asset ∨ goodOracle s.priceFeeds s.asset token) :
    ∃ v, currentValueOf env s token = .ok v := by
  unfold currentValueOf
  by_cases htok : token = s.asset
  · rw [if_pos htok]; exact ⟨_, rfl⟩
  · rw [if_neg htok]
    by_cases hb : 0 < balOf s token
    · rw [if_pos hb]; exact getTokenValueInAsset_total env s token _ h
    · rw [if_neg hb]; exact ⟨0, rfl⟩

theorem totalAssetsLoop_total (env : Env) (s : State) (l : List TokenAllocation)
    (hgood : ∀ a ∈ l, a.token = s.asset ∨ goodOracle s.priceFeeds s.asset a.token) :
    ∀ acc, ∃ v, totalAssetsLoop env s l acc = .ok v := by
  induction l with
  | nil => intro acc; exact ⟨acc, rfl⟩
  | cons a rest ih =>
    intro acc
    have hrest : ∀ b ∈ rest, b.token = s.asset ∨ goodOracle s.priceFeeds s.asset b.token :=
      fun b hb => hgood b (List.mem_cons_of_mem a hb)
    unfold totalAssetsLoop
    by_cases ha : a.token = s.asset
    · rw [if_neg (by simp [ha])]
      exact ih hrest acc
    · rw [if_pos (by simp [ha])]
      by_cases hb : 0 < balOf s a.token
      · rw [if_pos hb]
        obtain ⟨v, hv⟩ := getTokenValueInAsset_total env s a.token (balOf s a.token)
          (hgood a (List.mem_cons_self a rest))
        rw [hv]
        exact ih hrest (acc + v)
      · rw [if_neg hb]
        exact ih hrest acc

theorem totalAssets_total (env : Env) (s : State)
    (hgood : ∀ a ∈ s.allocations, a.token = s.asset ∨ goodOracle s.priceFeeds s.asset a.token) :
    ∃ v, totalAssets env s = .ok v :=
  totalAssetsLoop_total env s s.allocations hgood (balOf s s.asset)

theorem swapToken_ok (env : Env) (s : State) (f t : Address) (amount : Nat)
    (hq : ∀ n p l, env.quote n p = some l → l ≠ []) :
    ∃ s1 r, swapToken env s f t amount = .ok (s1, r) := by
  unfold swapToken
  by_cases h0 : f = t ∨ amount = 0
  · rw [if_pos h0]; exact ⟨s, none, rfl⟩
  · rw [if_neg h0]
    dsimp only
    cases hquote : env.quote amount (buildPath s f t) with
    | none => exact ⟨s, none, rfl⟩
    | some l =>
      dsimp only
      have hl : l ≠ [] := hq _ _ _ hquote
      cases hlast : l.getLast? with
      | none => exact absurd (List.getLast?_eq_none_iff.mp hlast) hl
      | some expectedOut =>
        dsimp only
        cases hexec : env.exec amount (expectedOut * (MAX_BPS - MAX_SLIPPAGE) / MAX_BPS)
            (buildPath s f t) with
        | some out =>
          dsimp only
          split
          · exact ⟨_, _, rfl⟩
          · exact ⟨_, _, rfl⟩
        | none => exact ⟨_, _, rfl⟩

theorem swapToken_fields (env : Env) (s : State) (f t : Address) (amount : Nat)
    (s1 : State) (r : Option ExecRecord)
    (h : swapToken env s f t amount = .ok (s1, r)) :
    s1.asset = s.asset ∧ s1.weth = s.weth ∧ s1.allocations = s.allocations ∧
    s1.priceFeeds = s.priceFeeds ∧ s1.allowedTokens = s.allowedTokens := by
  unfold swapToken at h
  split at h
  · simp only [Except.ok.injEq, Prod.mk.injEq] at h
    obtain ⟨rfl, rfl⟩ := h
    exact ⟨rfl, rfl, rfl, rfl, rfl⟩
  · try dsimp only at h
    split at h
    · simp only [Except.ok.injEq, Prod.mk.injEq] at h
      obtain ⟨rfl, rfl⟩ := h
      exact ⟨rfl, rfl, rfl, rfl, rfl⟩
    · split at h
      · simp at h
      · try dsimp only at h
        split at h
        · split at h
          · simp only [Except.ok.injEq, Prod.mk.injEq] at h
            obtain ⟨rfl, rfl⟩ := h
            exact ⟨rfl, rfl, rfl, rfl, rfl⟩
          · simp only [Except.ok.injEq, Prod.mk.injEq] at h
            obtain ⟨rfl, rfl⟩ := h
            exact ⟨rfl, rfl, rfl, rfl, rfl⟩
        · simp only [Except.ok.injEq, Prod.mk.injEq] at h
          obtain ⟨rfl, rfl⟩ := h
          exact ⟨rfl, rfl, rfl, rfl, rfl⟩

theorem rebalanceStep_ok (env : Env) (tv : Nat) (s : State) (a : TokenAllocation)
    (hq : ∀ n p l, env.quote n p = some l → l ≠ [])
    (h : a.token = s.asset ∨ goodOracle s.priceFeeds s.asset a.token) :
    ∃ s1 calls, rebalanceStep env tv s a = .ok (s1, calls) ∧
      s1.asset = s.asset ∧ s1.priceFeeds = s.priceFeeds := by
  obtain ⟨cv, hcv⟩ := currentValueOf_total env s a.token h
  unfold rebalanceStep
  rw [hcv]
  dsimp only
  split
  · obtain ⟨s1, r, hsw⟩ := swapToken_ok env s s.asset a.token _ hq
    rw [hsw]
    obtain ⟨h1, _, _, h4, _⟩ := swapToken_fields env s _ _ _ _ _ hsw
    exact ⟨s1, _, rfl, h1, h4⟩
  · split
    · split
      · obtain ⟨amt, hamt⟩ := convertAssetValueToTokenAmount_total env s a.token _ h
        rw [hamt]
        dsimp only
        obtain ⟨s1, r, hsw⟩ := swapToken_ok env s a.token s.asset _ hq
        rw [hsw]
        obtain ⟨h1, _, _, h4, _⟩ := swapToken_fields env s _ _ _ _ _ hsw
        exact ⟨s1, _, rfl, h1, h4⟩
      · exact ⟨s, [], rfl, rfl, rfl⟩
    · exact ⟨s, [], rfl, rfl, rfl⟩

theorem rebalanceLoop_ok (env : Env) (tv : Nat) (pf : List (Address × Feed)) (asset0 : Address)
    (hq : ∀ n p l, env.quote n p = some l → l ≠ []) :
    ∀ (l : List TokenAllocation) (s : State) (acc : List SwapCall),
      s.priceFeeds = pf → s.asset = asset0 →
      (∀ a ∈ l, a.token = asset0 ∨ goodOracle pf asset0 a.token) →
      ∃ s1 calls, rebalanceLoop env tv s l acc = .ok (s1, calls) ∧
        s1.priceFeeds = pf ∧ s1.asset = asset0 := by
  intro l
  induction l with
  | nil => intro s acc hpf hasset hgood; exact ⟨s, acc, rfl, hpf, hasset⟩
  | cons a rest ih =>
    intro s acc hpf hasset hgood
    have hga : a.token = s.asset ∨ goodOracle s.priceFeeds s.asset a.token := by
      rw [hpf, hasset]
      exact hgood a (List.mem_cons_self a rest)
    obtain ⟨s1, calls, hstep, hasset1, hpf1⟩ := rebalanceStep_ok env tv s a hq hga
    unfold rebalanceLoop
    rw [hstep]
    exact ih s1 (acc ++ calls) (by rw [hpf1, hpf]) (by rw [hasset1, hasset])
      (fun b hb => hgood b (List.mem_cons_of_mem a hb))

theorem liquidateStep_ok (env : Env) (tv needed : Nat) (s : State) (a : TokenAllocation)
    (hq : ∀ n p l, env.quote n p = some l → l ≠ [])
    (h : a.token = s.asset ∨ goodOracle s.priceFeeds s.asset a.token) :
    ∃ s1 calls, liquidateStep env tv needed s a = .ok (s1, calls) ∧
      s1.asset = s.asset ∧ s1.priceFeeds = s.priceFeeds := by
  unfold liquidateStep
  split
  · exact ⟨s, [], rfl, rfl, rfl⟩
  · dsimp only
    split
    · exact ⟨s, [], rfl, rfl, rfl⟩
    · obtain ⟨v, hv⟩ := getTokenValueInAsset_total env s a.token (balOf s a.token) h
      rw [hv]
      dsimp only
      split
      · obtain ⟨amt, hamt⟩ := convertAssetValueToTokenAmount_total env s a.token _ h
        rw [hamt]
        dsimp only
        obtain ⟨s1, r, hsw⟩ := swapToken_ok env s a.token s.asset _ hq
        rw [hsw]
        obtain ⟨h1, _, _, h4, _⟩ := swapToken_fields env s _ _ _ _ _ hsw
        exact ⟨s1, _, rfl, h1, h4⟩
      · exact ⟨s, [], rfl, rfl, rfl⟩

theorem liquidateLoop_ok (env : Env) (tv needed : Nat) (pf : List (Address × Feed))
    (asset0 : Address) (hq : ∀ n p l, env.quote n p = some l → l ≠ []) :
    ∀ (l : List TokenAllocation) (s : State) (acc : List SwapCall),
      s.priceFeeds = pf → s.asset = asset0 →
      (∀ a ∈ l, a.token = asset0 ∨ goodOracle pf asset0 a.token) →
      ∃ s1 calls, liquidateLoop env tv needed s l acc = .ok (s1, calls) ∧
        s1.priceFeeds = pf ∧ s1.asset = asset0 := by
  intro l
  induction l with
  | nil => intro s acc hpf hasset hgood; exact ⟨s, acc, rfl, hpf, hasset⟩
  | cons a rest ih =>
    intro s acc hpf hasset hgood
    have hga : a.token = s.asset ∨ goodOracle s.priceFeeds s.asset a.token := by
      rw [hpf, hasset]
      exact hgood a (List.mem_cons_self a rest)
    obtain ⟨s1, calls, hstep, hasset1, hpf1⟩ := liquidateStep_ok env tv needed s a hq hga
    unfold liquidateLoop
    rw [hstep]
    exact ih s1 (acc ++ calls) (by rw [hpf1, hpf]) (by rw [hasset1, hasset])
      (fun b hb => hgood b (List.mem_cons_of_mem a hb))

/-- C5 (amended): swap failures never abort a rebalance or liquidation
pass: as long as every allocation token has a working price binding, both
passes run to completion over all allocations and return ok, whatever the
router quote and execution functions do (quote failures and execution
failures are swallowed per token); a per-token valuation failure, by
contrast, aborts the entire call (see the counterexample). -/
theorem swap_failures_do_not_abort_pass (env : Env) (s : State)
    (hq : ∀ n p l, env.quote n p = some l → l ≠ [])
    (hgood : ∀ a ∈ s.allocations, a.token = s.asset ∨ goodOracle s.priceFeeds s.asset a.token) :
    (∃ s1 calls, rebalancePortfolio env s = .ok (s1, calls)) ∧
    (∀ needed, ∃ s1 calls, liquidateForWithdrawal env s needed = .ok (s1, calls)) := by
  constructor
  · unfold rebalancePortfolio
    by_cases hnil : s.allocations = []
    · rw [if_pos hnil]; exact ⟨s, [], rfl⟩
    · rw [if_neg hnil]
      obtain ⟨tv, htv⟩ := totalAssets_total env s hgood
      rw [htv]
      dsimp only
      by_cases h0 : tv = 0
      · rw [if_pos h0]; exact ⟨s, [], rfl⟩
      · rw [if_neg h0]
        obtain ⟨s1, calls, hloop, _, _⟩ :=
          rebalanceLoop_ok env tv s.priceFeeds s.asset hq s.allocations s [] rfl rfl hgood
        exact ⟨s1, calls, hloop⟩
  · intro needed
    unfold liquidateForWithdrawal
    by_cases hnil : s.allocations = []
    · rw [if_pos hnil]; exact ⟨s, [], rfl⟩
    · rw [if_neg hnil]
      obtain ⟨tv, htv⟩ := totalAssets_total env s hgood
      rw [htv]
      dsimp only
      by_cases h0 : tv = 0
      · rw [if_pos h0]; exact ⟨s, [], rfl⟩
      · rw [if_neg h0]
        obtain ⟨s1, calls, hloop, _, _⟩ :=
          liquidateLoop_ok env tv needed s.priceFeeds s.asset hq s.allocations s [] rfl rfl hgood
        exact ⟨s1, calls, hloop⟩

def sC5 : State :=
  ⟨1, 9, [⟨2, 5000⟩, ⟨3, 5000⟩], [1, 2, 3],
   [(1, ⟨1, 8⟩), (3, ⟨1, 8⟩)], [(1, 0), (2, 10), (3, 10)], []⟩

/-- C5 counterexample: token 2 holds a balance but has no price feed; the
rebalance and liquidation passes both abort with an OracleError for the
whole call, even though the second allocation (token 3, with a working
feed) was still to be processed — the pass does not skip the bad token and
continue. -/
theorem valuation_failure_aborts_whole_pass :
    rebalancePortfolio envC1 sC5 = .error (.OracleError "no token feed") ∧
    liquidateForWithdrawal envC1 sC5 10 = .error (.OracleError "no token feed") ∧
    sC5.allocations = [⟨2, 5000⟩, ⟨3, 5000⟩] ∧
    alookup sC5.priceFeeds 3 = some ⟨1, 8⟩ :=
  ⟨rfl, rfl, rfl, rfl⟩

/-- Router environment whose quotes always succeed with a two-element
amounts array but whose executions always fail. -/
def envQ : Env := ⟨fun _ => 0, fun n _ => some [n, n], fun _ _ _ => none⟩

/-- Witness for C5: with working feeds for every allocation token of sC4
and a router whose executions all fail, both passes still return ok. -/
theorem swap_failures_do_not_abort_pass_witness :
    (∃ s1 calls, rebalancePortfolio envQ sC4 = .ok (s1, calls)) ∧
    (∀ needed, ∃ s1 calls, liquidateForWithdrawal envQ sC4 needed = .ok (s1, calls)) :=
  swap_failures_do_not_abort_pass envQ sC4
    (fun n p l h => by injection h with h2; rw [← h2]; simp)
    (by
      intro a ha
      simp only [sC4, List.mem_cons, List.not_mem_nil, or_false] at ha
      rcases ha with rfl | rfl
      · exact Or.inr ⟨⟨1, 8⟩, ⟨1, 8⟩, rfl, rfl, by decide, by decide, rfl⟩
      · exact Or.inr ⟨⟨1, 8⟩, ⟨1, 8⟩, rfl, rfl, by decide, by decide, rfl⟩)

/-! Claim C7: no-op rebalance when every allocation is within threshold. -/

theorem rebalanceStep_noop (env : Env) (tv : Nat) (s : State) (a : TokenAllocation)
    (cv : Nat) (hcv : currentValueOf env s a.token = .ok cv)
    (h1 : ¬ cv + tv / 100 < tv * a.percentage / MAX_BPS)
    (h2 : ¬ tv * a.percentage / MAX_BPS + tv / 100 < cv) :
    rebalanceStep env tv s a = .ok (s, []) := by
  unfold rebalanceStep
  rw [hcv]
  dsimp only
  rw [if_neg h1, if_neg h2]

theorem rebalanceLoop_noop (env : Env) (tv : Nat) (s : State) :
    ∀ (l : List TokenAllocation) (acc : List SwapCall),
      (∀ a ∈ l, rebalanceStep env tv s a = .ok (s, [])) →
      rebalanceLoop env tv s l acc = .ok (s, acc) := by
  intro l
  induction l with
  | nil => intro acc _; rfl
  | cons a rest ih =>
    intro acc hsteps
    unfold rebalanceLoop
    rw [hsteps a (List.mem_cons_self a rest)]
    dsimp only
    rw [List.append_nil]
    exact ih acc (fun b hb => hsteps b (List.mem_cons_of_mem a hb))

/-- C7: if every allocation is within the rebalance threshold (neither the
buy nor the sell condition holds at the current values), the rebalance
pass issues no swap calls and returns the state unchanged; consequently
running the pass twice in a row leaves the holdings identical both
times. -/
theorem rebalance_noop_within_threshold (env : Env) (s : State) (tv : Nat)
    (htv : totalAssets env s = .ok tv)
    (hin : ∀ a ∈ s.allocations, ∃ cv, currentValueOf env s a.token = .ok cv ∧
      ¬ cv + tv / 100 < tv * a.percentage / MAX_BPS ∧
      ¬ tv * a.percentage / MAX_BPS + tv / 100 < cv) :
    rebalancePortfolio env s = .ok (s, []) ∧
    applyTx (applyTx s (rebalancePortfolio env s))
      (rebalancePortfolio env (applyTx s (rebalancePortfolio env s))) = s := by
  have hmain : rebalancePortfolio env s = .ok (s, []) := by
    unfold rebalancePortfolio
    by_cases hnil : s.allocations = []
    · rw [if_pos hnil]
    · rw [if_neg hnil, htv]
      dsimp only
      by_cases h0 : tv = 0
      · rw [if_pos h0]
      · rw [if_neg h0]
        refine rebalanceLoop_noop env tv s s.allocations [] ?_
        intro a ha
        obtain ⟨cv, hcv, hc1, hc2⟩ := hin a ha
        exact rebalanceStep_noop env tv s a cv hcv hc1 hc2
  have h2 : applyTx s (rebalancePortfolio env s) = s := by rw [hmain]; rfl
  refine ⟨hmain, ?_⟩
  rw [h2]
  exact h2

def sC7 : State :=
  ⟨1, 9, [⟨2, 6000⟩, ⟨3, 4000⟩], [1, 2, 3],
   [(1, ⟨1, 8⟩), (2, ⟨1, 8⟩), (3, ⟨1, 8⟩)], [(2, 595), (3, 405)], []⟩

/-- Witness for C7: values 595 and 405 against targets 600 and 400 at
total value 1000 and threshold 10 are both within threshold, so the pass
is a no-op twice over. -/
theorem rebalance_noop_within_threshold_witness :
    rebalancePortfolio envC1 sC7 = .ok (sC7, []) ∧
    applyTx (applyTx sC7 (rebalancePortfolio envC1 sC7))
      (rebalancePortfolio envC1 (applyTx sC7 (rebalancePortfolio envC1 sC7))) = sC7 :=
  rebalance_noop_within_threshold envC1 sC7 1000 rfl
    (by
      intro a ha
      simp only [sC7, List.mem_cons, List.not_mem_nil, or_false] at ha
      rcases ha with rfl | rfl
      · exact ⟨595, rfl, by decide, by decide⟩
      · exact ⟨405, rfl, by decide, by decide⟩)

/-! Claim C6: proportional liquidation. -/

/-- C6 (amended): during liquidation with total value tv, each allocation
entry for a non-base token with nonzero balance and holding value
tokenValue targets the base-asset value tokenValue * needed / tv; when
that floor is positive the step sells the amountOf-converted amount capped
at the actual balance (never overselling), otherwise it issues no swap.
Allocation entries are thus liquidated in proportion to their share of
total value; tokens held but absent from the allocations array are not
liquidated at all (see the counterexample). -/
theorem liquidateStep_proportional (env : Env) (tv needed tokenValue : Nat) (s : State)
    (a : TokenAllocation) (htok : ¬ a.token = s.asset) (hbal : ¬ balOf s a.token = 0)
    (hv : getTokenValueInAsset env s a.token (balOf s a.token) = .ok tokenValue) :
    (0 < tokenValue * needed / tv →
      ∀ amt, convertAssetValueToTokenAmount env s a.token (tokenValue * needed / tv) = .ok amt →
        liquidateStep env tv needed s a =
          (swapToken env s a.token s.asset (min amt (balOf s a.token))).map
            (fun p => (p.1, [⟨a.token, s.asset, min amt (balOf s a.token)⟩]))) ∧
    (tokenValue * needed / tv = 0 → liquidateStep env tv needed s a = .ok (s, [])) := by
  constructor
  · intro hpos amt hamt
    unfold liquidateStep
    rw [if_neg htok]
    dsimp only
    rw [if_neg hbal, hv]
    dsimp only
    rw [if_pos hpos, hamt]
    dsimp only
    have hmin : (if balOf s a.token < amt then balOf s a.token else amt) =
        min amt (balOf s a.token) := by split <;> omega
    rw [hmin]
    cases hsw : swapToken env s a.token s.asset (min amt (balOf s a.token)) with
    | error e => rfl
    | ok p => cases p; rfl
  · intro hz
    unfold liquidateStep
    rw [if_neg htok]
    dsimp only
    rw [if_neg hbal, hv]
    dsimp only
    rw [if_neg (by omega)]

def sC6 : State :=
  ⟨1, 9, [⟨2, 5000⟩, ⟨3, 5000⟩], [1, 2, 3],
   [(1, ⟨1, 8⟩), (2, ⟨1, 8⟩), (3, ⟨1, 8⟩)], [(2, 600), (3, 400)], []⟩

/-- Witness for C6: token 2 holds value 600 of total 1000; a request for
100 targets 600 * 100 / 1000 = 60, the 60:40 proportional share. -/
theorem liquidateStep_proportional_witness :
    (0 < 600 * 100 / 1000 →
      ∀ amt, convertAssetValueToTokenAmount envC1 sC6 2 (600 * 100 / 1000) = .ok amt →
        liquidateStep envC1 1000 100 sC6 ⟨2, 5000⟩ =
          (swapToken envC1 sC6 2 sC6.asset (min amt (balOf sC6 2))).map
            (fun p => (p.1, [⟨2, sC6.asset, min amt (balOf sC6 2)⟩]))) ∧
    (600 * 100 / 1000 = 0 → liquidateStep envC1 1000 100 sC6 ⟨2, 5000⟩ = .ok (sC6, [])) :=
  liquidateStep_proportional envC1 1000 100 600 sC6 ⟨2, 5000⟩ (by decide) (by decide) rfl

def sC6c : State :=
  ⟨1, 9, [⟨2, 5000⟩], [1, 2, 3],
   [(1, ⟨1, 8⟩), (2, ⟨1, 8⟩), (3, ⟨1, 8⟩)], [(1, 100), (2, 100), (3, 100)], []⟩

/-- C6 counterexample: token 3 is a non-base holding worth 100 (nonzero),
but it is not listed in the allocations array, so liquidate sells only
token 2 and leaves token 3 entirely untouched — not every non-base holding
with nonzero value is sold. -/
theorem liquidate_skips_unlisted_holding :
    (liquidateForWithdrawal envQ sC6c 50).map
      (fun p => (p.2.map SwapCall.fromToken, balOf p.1 3)) = .ok ([2], 100) ∧
    getTokenValueInAsset envQ sC6c 3 100 = .ok 100 ∧
    balOf sC6c 3 = 100 :=
  ⟨rfl, rfl, rfl⟩

/-! Claim C8: the slippage bound on every executed swap. -/

/-- C8: whenever a swap proceeds to execution (distinct tokens, nonzero
amount, successful quote), the minimum output handed to the router equals
expectedOutput * (10000 - 500) / 10000, the fixed five percent slippage
bound applied to the quoted output along the built route. -/
theorem swap_amountOutMin_slippage (env : Env) (s : State) (f t : Address) (amount : Nat)
    (amounts : List Nat) (expectedOut : Nat)
    (hne : ¬ (f = t ∨ amount = 0))
    (hq : env.quote amount (buildPath s f t) = some amounts)
    (hlast : amounts.getLast? = some expectedOut) :
    ∃ s1 r, swapToken env s f t amount = .ok (s1, some r) ∧
      r.amountOutMin = expectedOut * (10000 - 500) / 10000 ∧
      r.amountIn = amount ∧ r.path = buildPath s f t := by
  unfold swapToken
  rw [if_neg hne]
  dsimp only
  rw [hq]
  dsimp only
  rw [hlast]
  dsimp only
  cases hexec : env.exec amount (expectedOut * (MAX_BPS - MAX_SLIPPAGE) / MAX_BPS)
      (buildPath s f t) with
  | some out =>
    dsimp only
    split
    · exact ⟨_, _, rfl, rfl, rfl, rfl⟩
    · exact ⟨_, _, rfl, rfl, rfl, rfl⟩
  | none => exact ⟨_, _, rfl, rfl, rfl, rfl⟩

/-- Witness for C8: a concrete buy of 40 units quoted at 40 gets minimum
output 40 * 9500 / 10000 = 38. -/
theorem swap_amountOutMin_slippage_witness :
    ∃ s1 r, swapToken envQ sC6 2 1 40 = .ok (s1, some r) ∧
      r.amountOutMin = 40 * (10000 - 500) / 10000 ∧
      r.amountIn = 40 ∧ r.path = buildPath sC6 2 1 :=
  swap_amountOutMin_slippage envQ sC6 2 1 40 [40, 40] 40 (by decide) rfl rfl

/-! Claim C9: failed execution resets the router approval. -/

theorem alookup_cons_self {β : Type} (l : List (Address × β)) (k : Address) (v : β) :
    alookup ((k, v) :: l) k = some v := by simp [alookup]

/-- C9: when the router execution of a swap fails — the exec call reverts,
or it would spend more of the from token than the strategy holds — the
adapter returns ok (no error escalates to the caller), records the swap as
not executed, resets the from-token router allowance to zero, and leaves
every balance unchanged. -/
theorem swap_failure_resets_approval (env : Env) (s : State) (f t : Address) (amount : Nat)
    (amounts : List Nat) (expectedOut : Nat)
    (hne : ¬ (f = t ∨ amount = 0))
    (hq : env.quote amount (buildPath s f t) = some amounts)
    (hlast : amounts.getLast? = some expectedOut) :
    (env.exec amount (expectedOut * (MAX_BPS - MAX_SLIPPAGE) / MAX_BPS) (buildPath s f t) =
        none →
      ∃ s1 r, swapToken env s f t amount = .ok (s1, some r) ∧
        r.succeeded = false ∧ allowanceOf s1 f = 0 ∧ s1.balances = s.balances) ∧
    (∀ out, env.exec amount (expectedOut * (MAX_BPS - MAX_SLIPPAGE) / MAX_BPS)
        (buildPath s f t) = some out →
      balOf s f < amount →
      ∃ s1 r, swapToken env s f t amount = .ok (s1, some r) ∧
        r.succeeded = false ∧ allowanceOf s1 f = 0 ∧ s1.balances = s.balances) := by
  constructor
  · intro hfail
    unfold swapToken
    rw [if_neg hne]
    dsimp only
    rw [hq]
    dsimp only
    rw [hlast]
    dsimp only
    rw [hfail]
    refine ⟨_, _, rfl, rfl, ?_, rfl⟩
    simp [allowanceOf, setAllowance, alookup_cons_self]
  · intro out hexec hbal
    unfold swapToken
    rw [if_neg hne]
    dsimp only
    rw [hq]
    dsimp only
    rw [hlast]
    dsimp only
    rw [hexec]
    dsimp only
    rw [if_neg (show ¬ amount ≤ balOf (setAllowance s f amount) f by
      change ¬ amount ≤ balOf s f
      omega)]
    refine ⟨_, _, rfl, rfl, ?_, rfl⟩
    simp [allowanceOf, setAllowance, alookup_cons_self]

/-- Witness for C9: with a router whose execution always fails, the swap of
40 units of token 2 reports not executed, zero allowance, balances kept. -/
theorem swap_failure_resets_approval_witness :
    ∃ s1 r, swapToken envQ sC6 2 1 40 = .ok (s1, some r) ∧
      r.succeeded = false ∧ allowanceOf s1 2 = 0 ∧ s1.balances = sC6.balances :=
  (swap_failure_resets_approval envQ sC6 2 1 40 [40, 40] 40 (by decide) rfl rfl).1 rfl

/-! Claim C10: emergency exit always clears the target portfolio. -/

/-- C10: whenever emergencyExitAllPositions returns, the allocations array
is empty — the delete runs unconditionally after the exit loop, even when
some or all individual exit swaps were skipped or failed, so the strategy
can end the call still holding non-base tokens with an empty target
portfolio. -/
theorem emergencyExit_clears_allocations (env : Env) (s s1 : State) (calls : List SwapCall)
    (h : emergencyExitAllPositions env s = .ok (s1, calls)) :
    s1.allocations = [] := by
  unfold emergencyExitAllPositions at h
  cases hloop : exitLoop env s s.allocations [] with
  | error e => rw [hloop] at h; cases h
  | ok p =>
    rw [hloop] at h
    cases p with
    | mk s2 calls2 =>
      simp only [Except.ok.injEq, Prod.mk.injEq] at h
      obtain ⟨h1, h2⟩ := h
      rw [← h1]

def sC10 : State :=
  ⟨1, 9, [⟨2, 5000⟩], [1, 2], [(1, ⟨1, 8⟩), (2, ⟨1, 8⟩)], [(2, 100)], []⟩

/-- Witness for C10: every quote fails, so the exit swap for token 2 is
skipped and its balance of 100 survives, yet the allocations array ends
empty. -/
theorem emergencyExit_clears_allocations_witness :
    emergencyExitAllPositions envC1 sC10 =
      .ok ({ sC10 with allocations := [] }, [⟨2, 1, 100⟩]) ∧
    ({ sC10 with allocations := [] }).allocations = [] ∧
    balOf { sC10 with allocations := [] } 2 = 100 :=
  ⟨rfl, emergencyExit_clears_allocations envC1 sC10 _ _ rfl, rfl⟩
